import Mathlib

/-!
Shallow embedding of `src/1000.py`: a pygame simulation of a 10×10 grid of
20-sided dice, each re-rolling on its own interval, with a global tally of
low (1–13) versus high (14–20) outcomes capped at 1000 rolls.

Python floats are embedded as exact rationals `ℚ`; Python ints as `ℕ`.
The ambient random source (`random.randint`) is modelled as a stream
`rng : ℕ → ℕ` of raw draws mapped onto the requested range.
Rendering (pygame drawing, fonts, events) is out of scope per the spec.
-/

namespace DiceSim

/-! ### Configuration constants (source lines 5–38) -/

def WINDOW_WIDTH : ℕ := 1000

def WINDOW_HEIGHT : ℕ := 600

def BAR_CHART_WIDTH : ℕ := 200

def DICE_AREA_MARGIN : ℕ := 40

def COLUMNS : ℕ := 10

def ROWS : ℕ := 10

def NUM_DICE : ℕ := COLUMNS * ROWS

def DICE_SIZE : ℕ := 40

def SPACING : ℕ := 10

/-- Source: `BASE_INTERVAL = 1.0` (slowest die updates every 1.0 s). -/
def BASE_INTERVAL : ℚ := 1

/-- Source: `MIN_INTERVAL = 0.2` (fastest die updates every 0.2 s),
embedded exactly as 1/5. -/
def MIN_INTERVAL : ℚ := 1/5

/-- Source: `MAX_ROLLS = 1000`, the simulation stop condition. -/
def MAX_ROLLS : ℕ := 1000

def BAR_WIDTH : ℕ := 50

def BAR_MAX_HEIGHT : ℕ := 400

def BAR_BOTTOM : ℕ := 550

/-! ### Random source -/

/-- Model of Python `random.randint(lo, hi)`: an inclusive-range uniform
draw. The raw draw `r` comes from the ambient random stream; mapping it
through `lo + r % (hi - lo + 1)` lands in `[lo, hi]`, each face hit by
exactly one residue class of `r` mod the range size, so a uniform raw
draw yields a uniform face. -/
def randint (lo hi : ℕ) (r : ℕ) : ℕ := lo + r % (hi - lo + 1)

/-! ### Dice class (source lines 44–60; `draw` is rendering, out of scope) -/

/-- The `Dice` class state: position, size, update interval, timestamp of
the last re-roll, and current face value. -/
structure Dice where
  x : ℕ
  y : ℕ
  size : ℕ
  update_interval : ℚ
  last_update_time : ℚ
  value : ℕ
deriving DecidableEq

/-- `Dice.update(current_time)` (source lines 53–60): if the update
interval has passed, re-roll the face from the random stream (raw draw
`r`), stamp the current time and report `true`; otherwise report `false`
and change nothing. -/
def Dice.update (d : Dice) (current_time : ℚ) (r : ℕ) : Dice × Bool :=
  if current_time - d.last_update_time ≥ d.update_interval then
    ({ d with value := randint 1 20 r, last_update_time := current_time }, true)
  else
    (d, false)

/-- Iterated `update` calls: fold a list of (current_time, raw draw)
pairs through `Dice.update`, keeping the resulting die each time. -/
def Dice.updates (d : Dice) (l : List (ℚ × ℕ)) : Dice :=
  l.foldl (fun e p => (e.update p.1 p.2).1) d

/-! ### Dice grid setup (source lines 71–88) -/

def grid_width : ℕ := COLUMNS * DICE_SIZE + (COLUMNS - 1) * SPACING

def grid_height : ℕ := ROWS * DICE_SIZE + (ROWS - 1) * SPACING

def grid_start_x : ℕ := BAR_CHART_WIDTH + DICE_AREA_MARGIN

def grid_start_y : ℕ := (WINDOW_HEIGHT - grid_height) / 2

/-- The update interval assigned to die `i` (source line 87): linear
interpolation from `BASE_INTERVAL` at `i = 0` down to `MIN_INTERVAL` at
`i = NUM_DICE - 1`. -/
def diceInterval (i : ℕ) : ℚ :=
  BASE_INTERVAL - ((i : ℚ) / ((NUM_DICE : ℚ) - 1)) * (BASE_INTERVAL - MIN_INTERVAL)

/-- Construction of die `i` of the grid (source lines 81–88).
`t0 i` is the value `time.time()` returned during die `i`'s construction;
`rng i` is the raw draw behind its initial `random.randint(1, 20)`. -/
def mkDice (t0 : ℕ → ℚ) (rng : ℕ → ℕ) (i : ℕ) : Dice :=
  { x := grid_start_x + (i % COLUMNS) * (DICE_SIZE + SPACING)
    y := grid_start_y + (i / COLUMNS) * (DICE_SIZE + SPACING)
    size := DICE_SIZE
    update_interval := diceInterval i
    last_update_time := t0 i
    value := randint 1 20 (rng i) }

/-! ### Simulation state and per-frame step (source lines 90–125) -/

/-- The global mutable counters and phase flag (source lines 91–101),
plus the cursor `rngIdx` into the ambient random stream (each successful
re-roll consumes one raw draw). -/
structure Tally where
  global_roll_count : ℕ
  count_low : ℕ
  count_high : ℕ
  simulation_active : Bool
  rngIdx : ℕ
deriving DecidableEq

/-- The tally bookkeeping after a successful re-roll to face `v`
(source lines 116–121): count the roll and classify it as low
(`1 <= v <= 13`) or high (otherwise). -/
def rollTally (v : ℕ) (tal : Tally) : Tally :=
  { global_roll_count := tal.global_roll_count + 1
    count_low := if 1 ≤ v ∧ v ≤ 13 then tal.count_low + 1 else tal.count_low
    count_high := if 1 ≤ v ∧ v ≤ 13 then tal.count_high else tal.count_high + 1
    simulation_active := tal.simulation_active
    rngIdx := tal.rngIdx + 1 }

/-- Clearing the active flag when the cap is reached (source line 124). -/
def finishTally (tal : Tally) : Tally :=
  { tal with simulation_active := false }

/-- The per-frame `for dice in dice_list` loop (source lines 114–125).
For each die in order: if the cap is not yet reached (the short-circuit
guard `global_roll_count < MAX_ROLLS`) and `update` reports a re-roll,
tally the new face; on reaching the cap, clear the active flag and
`break`, leaving the remaining dice of this frame untouched. -/
def stepDice (rng : ℕ → ℕ) (t : ℚ) : List Dice → Tally → List Dice × Tally
  | [], tal => ([], tal)
  | d :: ds, tal =>
    if tal.global_roll_count < MAX_ROLLS then
      if (d.update t (rng tal.rngIdx)).2 then
        let d' := (d.update t (rng tal.rngIdx)).1
        let tal1 := rollTally d'.value tal
        if MAX_ROLLS ≤ tal1.global_roll_count then
          (d' :: ds, finishTally tal1)
        else
          let rest := stepDice rng t ds tal1
          (d' :: rest.1, rest.2)
      else
        let rest := stepDice rng t ds tal
        (d :: rest.1, rest.2)
    else
      let rest := stepDice rng t ds tal
      (d :: rest.1, rest.2)

/-- The whole simulation state: the dice grid plus the tally. -/
structure SimState where
  dice : List Dice
  tally : Tally
deriving DecidableEq

/-- One frame of the main loop, simulation part only (source lines
112–125): if the simulation is active, run the per-dice update loop at
time `t`; otherwise do nothing. -/
def frame (rng : ℕ → ℕ) (t : ℚ) (s : SimState) : SimState :=
  if s.tally.simulation_active then
    { dice := (stepDice rng t s.dice s.tally).1
      tally := (stepDice rng t s.dice s.tally).2 }
  else s

/-- The startup state (source lines 80–101): the grid of `NUM_DICE` dice
with interpolated intervals, zeroed counters, active flag set. Raw draws
`rng 0 .. rng (NUM_DICE - 1)` seed the initial faces, so the stream
cursor starts at `NUM_DICE`. -/
def initState (t0 : ℕ → ℚ) (rng : ℕ → ℕ) : SimState :=
  { dice := (List.range NUM_DICE).map (mkDice t0 rng)
    tally :=
      { global_roll_count := 0
        count_low := 0
        count_high := 0
        simulation_active := true
        rngIdx := NUM_DICE } }

/-- The states the simulation can reach: the startup state (for any
construction timestamps `t0`), closed under per-frame steps at arbitrary
frame times. -/
inductive Reachable (rng : ℕ → ℕ) : SimState → Prop
  | init (t0 : ℕ → ℚ) : Reachable rng (initState t0 rng)
  | step {s : SimState} (t : ℚ) : Reachable rng s → Reachable rng (frame rng t s)

/-! ### Bar chart heights (source lines 132–133) -/

/-- The spec's pure bar-height function:
`bar_height(count, cap, max_height) = (count / cap) * max_height`. -/
def bar_height (count cap max_height : ℚ) : ℚ := count / cap * max_height

/-- `low_bar_height = (count_low / MAX_ROLLS) * BAR_MAX_HEIGHT`
(source line 132). -/
def low_bar_height (count_low : ℕ) : ℚ :=
  ((count_low : ℚ) / (MAX_ROLLS : ℚ)) * (BAR_MAX_HEIGHT : ℚ)

/-- `high_bar_height = (count_high / MAX_ROLLS) * BAR_MAX_HEIGHT`
(source line 133). -/
def high_bar_height (count_high : ℕ) : ℚ :=
  ((count_high : ℚ) / (MAX_ROLLS : ℚ)) * (BAR_MAX_HEIGHT : ℚ)

/-! ### Auxiliary predicates and concrete data for witnesses -/

/-- A face value is legal for a 20-sided die. -/
def ValOK (d : Dice) : Prop := 1 ≤ d.value ∧ d.value ≤ 20

def t0c : ℕ → ℚ := fun _ => 0

def rngc : ℕ → ℕ := fun n => n

def d0 : Dice :=
  { x := 0, y := 0, size := 40, update_interval := 1, last_update_time := 0, value := 5 }

def sInactive : SimState :=
  { dice := [d0]
    tally :=
      { global_roll_count := 5, count_low := 3, count_high := 2
        simulation_active := false, rngIdx := 0 } }

def talW : Tally :=
  { global_roll_count := 999, count_low := 500, count_high := 499
    simulation_active := true, rngIdx := 0 }

/-! ### Basic lemmas about `randint` and `Dice.update` -/

theorem randint_one_le (r : ℕ) : 1 ≤ randint 1 20 r := by
  unfold randint
  omega

theorem randint_le_twenty (r : ℕ) : randint 1 20 r ≤ 20 := by
  unfold randint
  omega

theorem update_snd_iff (d : Dice) (t : ℚ) (r : ℕ) :
    (d.update t r).2 = true ↔ t - d.last_update_time ≥ d.update_interval := by
  unfold Dice.update
  split <;> simp_all

theorem update_fst_pos (d : Dice) (t : ℚ) (r : ℕ)
    (h : t - d.last_update_time ≥ d.update_interval) :
    (d.update t r).1 = { d with value := randint 1 20 r, last_update_time := t } := by
  unfold Dice.update
  split <;> simp_all

theorem update_fst_neg (d : Dice) (t : ℚ) (r : ℕ)
    (h : ¬ t - d.last_update_time ≥ d.update_interval) :
    d.update t r = (d, false) := by
  unfold Dice.update
  split <;> simp_all

theorem update_interval_const (d : Dice) (t : ℚ) (r : ℕ) :
    (d.update t r).1.update_interval = d.update_interval := by
  unfold Dice.update
  split <;> rfl

theorem update_last_mono (d : Dice) (h : 0 < d.update_interval) (t : ℚ) (r : ℕ) :
    d.last_update_time ≤ (d.update t r).1.last_update_time := by
  unfold Dice.update
  split
  · next hc => simp only; linarith
  · exact le_refl _

/-! ### Lemmas about the interval interpolation -/

theorem diceInterval_antitone {i j : ℕ} (h : i ≤ j) : diceInterval j ≤ diceInterval i := by
  unfold diceInterval BASE_INTERVAL MIN_INTERVAL NUM_DICE COLUMNS ROWS
  have hij : (i : ℚ) ≤ (j : ℚ) := by exact_mod_cast h
  have hi0 : (0 : ℚ) ≤ (i : ℚ) := Nat.cast_nonneg i
  norm_num
  nlinarith [hij, hi0]

theorem diceInterval_zero : diceInterval 0 = BASE_INTERVAL := by
  unfold diceInterval
  norm_num

theorem diceInterval_last : diceInterval (NUM_DICE - 1) = MIN_INTERVAL := by
  unfold diceInterval BASE_INTERVAL MIN_INTERVAL NUM_DICE COLUMNS ROWS
  norm_num

theorem diceInterval_ge_min {i : ℕ} (h : i < NUM_DICE) : MIN_INTERVAL ≤ diceInterval i := by
  have h' : i ≤ NUM_DICE - 1 := by
    unfold NUM_DICE COLUMNS ROWS at h ⊢
    omega
  calc MIN_INTERVAL = diceInterval (NUM_DICE - 1) := diceInterval_last.symm
    _ ≤ diceInterval i := diceInterval_antitone h'

theorem diceInterval_pos {i : ℕ} (h : i < NUM_DICE) : 0 < diceInterval i := by
  have := diceInterval_ge_min h
  unfold MIN_INTERVAL at this
  linarith

/-! ### Lemmas about the tally bookkeeping -/

theorem rollTally_global (v : ℕ) (tal : Tally) :
    (rollTally v tal).global_roll_count = tal.global_roll_count + 1 := rfl

theorem rollTally_active (v : ℕ) (tal : Tally) :
    (rollTally v tal).simulation_active = tal.simulation_active := rfl

theorem rollTally_sum {tal : Tally}
    (h : tal.count_low + tal.count_high = tal.global_roll_count) (v : ℕ) :
    (rollTally v tal).count_low + (rollTally v tal).count_high
      = (rollTally v tal).global_roll_count := by
  unfold rollTally
  split_ifs <;> simp <;> omega

/-! ### Case equations for the per-frame loop `stepDice` -/

theorem stepDice_nil (rng : ℕ → ℕ) (t : ℚ) (tal : Tally) :
    stepDice rng t [] tal = ([], tal) := rfl

theorem stepDice_cons_stuck (rng : ℕ → ℕ) (t : ℚ) (d : Dice) (ds : List Dice) (tal : Tally)
    (h : ¬ tal.global_roll_count < MAX_ROLLS) :
    stepDice rng t (d :: ds) tal =
      (d :: (stepDice rng t ds tal).1, (stepDice rng t ds tal).2) := by
  simp only [stepDice, if_neg h]

theorem stepDice_cons_noroll (rng : ℕ → ℕ) (t : ℚ) (d : Dice) (ds : List Dice) (tal : Tally)
    (h1 : tal.global_roll_count < MAX_ROLLS)
    (h2 : (d.update t (rng tal.rngIdx)).2 = false) :
    stepDice rng t (d :: ds) tal =
      (d :: (stepDice rng t ds tal).1, (stepDice rng t ds tal).2) := by
  simp only [stepDice, if_pos h1, h2, Bool.false_eq_true, if_false]

theorem stepDice_cons_roll_break (rng : ℕ → ℕ) (t : ℚ) (d : Dice) (ds : List Dice) (tal : Tally)
    (h1 : tal.global_roll_count < MAX_ROLLS)
    (h2 : (d.update t (rng tal.rngIdx)).2 = true)
    (h3 : MAX_ROLLS ≤ tal.global_roll_count + 1) :
    stepDice rng t (d :: ds) tal =
      ((d.update t (rng tal.rngIdx)).1 :: ds,
        finishTally (rollTally (d.update t (rng tal.rngIdx)).1.value tal)) := by
  simp only [stepDice, if_pos h1, h2, if_true, rollTally_global, if_pos h3]

theorem stepDice_cons_roll_cont (rng : ℕ → ℕ) (t : ℚ) (d : Dice) (ds : List Dice) (tal : Tally)
    (h1 : tal.global_roll_count < MAX_ROLLS)
    (h2 : (d.update t (rng tal.rngIdx)).2 = true)
    (h3 : ¬ MAX_ROLLS ≤ tal.global_roll_count + 1) :
    stepDice rng t (d :: ds) tal =
      ((d.update t (rng tal.rngIdx)).1 ::
          (stepDice rng t ds (rollTally (d.update t (rng tal.rngIdx)).1.value tal)).1,
        (stepDice rng t ds (rollTally (d.update t (rng tal.rngIdx)).1.value tal)).2) := by
  simp only [stepDice, if_pos h1, h2, if_true, rollTally_global, if_neg h3]

/-! ### Invariant lemmas for the per-frame loop -/

theorem stepDice_stuck (rng : ℕ → ℕ) (t : ℚ) (ds : List Dice) (tal : Tally)
    (h : ¬ tal.global_roll_count < MAX_ROLLS) :
    stepDice rng t ds tal = (ds, tal) := by
  induction ds with
  | nil => rfl
  | cons d ds ih => rw [stepDice_cons_stuck rng t d ds tal h, ih]

theorem stepDice_sum (rng : ℕ → ℕ) (t : ℚ) (ds : List Dice) :
    ∀ tal : Tally,
      tal.count_low + tal.count_high = tal.global_roll_count →
      (stepDice rng t ds tal).2.count_low + (stepDice rng t ds tal).2.count_high
        = (stepDice rng t ds tal).2.global_roll_count := by
  induction ds with
  | nil => intro tal h; exact h
  | cons d ds ih =>
    intro tal h
    by_cases h1 : tal.global_roll_count < MAX_ROLLS
    · by_cases h2 : (d.update t (rng tal.rngIdx)).2 = true
      · have hsum1 := rollTally_sum h (d.update t (rng tal.rngIdx)).1.value
        by_cases h3 : MAX_ROLLS ≤ tal.global_roll_count + 1
        · rw [stepDice_cons_roll_break rng t d ds tal h1 h2 h3]
          simpa [finishTally] using hsum1
        · rw [stepDice_cons_roll_cont rng t d ds tal h1 h2 h3]
          exact ih _ hsum1
      · rw [stepDice_cons_noroll rng t d ds tal h1 (by simpa using h2)]
        exact ih _ h
    · rw [stepDice_cons_stuck rng t d ds tal h1]
      exact ih _ h

theorem stepDice_cap (rng : ℕ → ℕ) (t : ℚ) (ds : List Dice) :
    ∀ tal : Tally,
      tal.global_roll_count ≤ MAX_ROLLS →
      (stepDice rng t ds tal).2.global_roll_count ≤ MAX_ROLLS := by
  induction ds with
  | nil => intro tal h; exact h
  | cons d ds ih =>
    intro tal h
    by_cases h1 : tal.global_roll_count < MAX_ROLLS
    · by_cases h2 : (d.update t (rng tal.rngIdx)).2 = true
      · by_cases h3 : MAX_ROLLS ≤ tal.global_roll_count + 1
        · rw [stepDice_cons_roll_break rng t d ds tal h1 h2 h3]
          simp only [finishTally, rollTally_global]
          omega
        · rw [stepDice_cons_roll_cont rng t d ds tal h1 h2 h3]
          exact ih _ (by rw [rollTally_global]; omega)
      · rw [stepDice_cons_noroll rng t d ds tal h1 (by simpa using h2)]
        exact ih _ h
    · rw [stepDice_cons_stuck rng t d ds tal h1]
      exact ih _ h

theorem stepDice_active_mono (rng : ℕ → ℕ) (t : ℚ) (ds : List Dice) :
    ∀ tal : Tally,
      (stepDice rng t ds tal).2.simulation_active = true →
      tal.simulation_active = true := by
  induction ds with
  | nil => intro tal h; exact h
  | cons d ds ih =>
    intro tal h
    by_cases h1 : tal.global_roll_count < MAX_ROLLS
    · by_cases h2 : (d.update t (rng tal.rngIdx)).2 = true
      · by_cases h3 : MAX_ROLLS ≤ tal.global_roll_count + 1
        · rw [stepDice_cons_roll_break rng t d ds tal h1 h2 h3] at h
          simp [finishTally] at h
        · rw [stepDice_cons_roll_cont rng t d ds tal h1 h2 h3] at h
          have := ih _ h
          rwa [rollTally_active] at this
      · rw [stepDice_cons_noroll rng t d ds tal h1 (by simpa using h2)] at h
        exact ih _ h
    · rw [stepDice_cons_stuck rng t d ds tal h1] at h
      exact ih _ h

theorem stepDice_active_progress (rng : ℕ → ℕ) (t : ℚ) (ds : List Dice) :
    ∀ tal : Tally,
      tal.simulation_active = true →
      tal.global_roll_count < MAX_ROLLS →
      ((stepDice rng t ds tal).2.simulation_active = true ∧
        (stepDice rng t ds tal).2.global_roll_count < MAX_ROLLS) ∨
      ((stepDice rng t ds tal).2.simulation_active = false ∧
        (stepDice rng t ds tal).2.global_roll_count = MAX_ROLLS) := by
  induction ds with
  | nil => intro tal hact hlt; exact Or.inl ⟨hact, hlt⟩
  | cons d ds ih =>
    intro tal hact hlt
    by_cases h2 : (d.update t (rng tal.rngIdx)).2 = true
    · by_cases h3 : MAX_ROLLS ≤ tal.global_roll_count + 1
      · rw [stepDice_cons_roll_break rng t d ds tal hlt h2 h3]
        refine Or.inr ⟨rfl, ?_⟩
        simp only [finishTally, rollTally_global]
        omega
      · rw [stepDice_cons_roll_cont rng t d ds tal hlt h2 h3]
        exact ih _ (by rwa [rollTally_active]) (by rw [rollTally_global]; omega)
    · rw [stepDice_cons_noroll rng t d ds tal hlt (by simpa using h2)]
      exact ih _ hact hlt

theorem stepDice_deactivation (rng : ℕ → ℕ) (t : ℚ) (ds : List Dice) (tal : Tally)
    (hact : tal.simulation_active = true)
    (hfin : (stepDice rng t ds tal).2.simulation_active = false) :
    (stepDice rng t ds tal).2.global_roll_count = MAX_ROLLS := by
  by_cases h1 : tal.global_roll_count < MAX_ROLLS
  · rcases stepDice_active_progress rng t ds tal hact h1 with ⟨ha, _⟩ | ⟨_, hg⟩
    · rw [ha] at hfin
      exact absurd hfin (by simp)
    · exact hg
  · rw [stepDice_stuck rng t ds tal h1] at hfin
    rw [hact] at hfin
    exact absurd hfin (by simp)

theorem update_valOK {d : Dice} (h : ValOK d) (t : ℚ) (r : ℕ) : ValOK (d.update t r).1 := by
  unfold Dice.update
  split
  · exact ⟨randint_one_le r, randint_le_twenty r⟩
  · exact h

theorem stepDice_valOK (rng : ℕ → ℕ) (t : ℚ) (ds : List Dice) :
    ∀ tal : Tally,
      (∀ d ∈ ds, ValOK d) →
      ∀ e ∈ (stepDice rng t ds tal).1, ValOK e := by
  induction ds with
  | nil => intro tal _ e he; exact absurd he (List.not_mem_nil e)
  | cons d ds ih =>
    intro tal h e he
    have hd : ValOK d := h d (List.mem_cons_self d ds)
    have hds : ∀ d' ∈ ds, ValOK d' := fun d' hd' => h d' (List.mem_cons_of_mem d hd')
    by_cases h1 : tal.global_roll_count < MAX_ROLLS
    · by_cases h2 : (d.update t (rng tal.rngIdx)).2 = true
      · by_cases h3 : MAX_ROLLS ≤ tal.global_roll_count + 1
        · rw [stepDice_cons_roll_break rng t d ds tal h1 h2 h3] at he
          rcases List.mem_cons.mp he with rfl | hmem
          · exact update_valOK hd t (rng tal.rngIdx)
          · exact hds e hmem
        · rw [stepDice_cons_roll_cont rng t d ds tal h1 h2 h3] at he
          rcases List.mem_cons.mp he with rfl | hmem
          · exact update_valOK hd t (rng tal.rngIdx)
          · exact ih _ hds e hmem
      · rw [stepDice_cons_noroll rng t d ds tal h1 (by simpa using h2)] at he
        rcases List.mem_cons.mp he with rfl | hmem
        · exact hd
        · exact ih _ hds e hmem
    · rw [stepDice_cons_stuck rng t d ds tal h1] at he
      rcases List.mem_cons.mp he with rfl | hmem
      · exact hd
      · exact ih _ hds e hmem

theorem stepDice_break_suffix (rng : ℕ → ℕ) (t : ℚ) (ds : List Dice) :
    ∀ tal : Tally,
      tal.simulation_active = true →
      (stepDice rng t ds tal).2.simulation_active = false →
      ∃ j : ℕ, j < ds.length ∧
        (stepDice rng t ds tal).1.drop (j + 1) = ds.drop (j + 1) := by
  induction ds with
  | nil =>
    intro tal hact hfin
    rw [stepDice_nil] at hfin
    rw [hact] at hfin
    exact absurd hfin (by simp)
  | cons d ds ih =>
    intro tal hact hfin
    by_cases h1 : tal.global_roll_count < MAX_ROLLS
    · by_cases h2 : (d.update t (rng tal.rngIdx)).2 = true
      · by_cases h3 : MAX_ROLLS ≤ tal.global_roll_count + 1
        · rw [stepDice_cons_roll_break rng t d ds tal h1 h2 h3]
          exact ⟨0, by simp, rfl⟩
        · rw [stepDice_cons_roll_cont rng t d ds tal h1 h2 h3] at hfin ⊢
          obtain ⟨j, hj, hdrop⟩ := ih _ (by rwa [rollTally_active]) hfin
          exact ⟨j + 1, by simpa using Nat.succ_lt_succ hj, by simpa using hdrop⟩
      · rw [stepDice_cons_noroll rng t d ds tal h1 (by simpa using h2)] at hfin ⊢
        obtain ⟨j, hj, hdrop⟩ := ih _ hact hfin
        exact ⟨j + 1, by simpa using Nat.succ_lt_succ hj, by simpa using hdrop⟩
    · rw [stepDice_cons_stuck rng t d ds tal h1] at hfin ⊢
      obtain ⟨j, hj, hdrop⟩ := ih _ hact hfin
      exact ⟨j + 1, by simpa using Nat.succ_lt_succ hj, by simpa using hdrop⟩

theorem stepDice_freeze (rng : ℕ → ℕ) (t : ℚ) (ds : List Dice) :
    ∀ (n : ℕ) (tal : Tally),
      tal.simulation_active = true →
      (stepDice rng t (ds.take n) tal).2.simulation_active = false →
      (stepDice rng t ds tal).1 = (stepDice rng t (ds.take n) tal).1 ++ ds.drop n ∧
      (stepDice rng t ds tal).2 = (stepDice rng t (ds.take n) tal).2 := by
  induction ds with
  | nil =>
    intro n tal hact hfin
    rw [List.take_nil, stepDice_nil] at hfin
    rw [hact] at hfin
    exact absurd hfin (by simp)
  | cons d ds ih =>
    intro n tal hact hfin
    cases n with
    | zero =>
      rw [List.take_zero, stepDice_nil] at hfin
      rw [hact] at hfin
      exact absurd hfin (by simp)
    | succ m =>
      rw [List.take_succ_cons] at hfin ⊢
      rw [List.drop_succ_cons]
      by_cases h1 : tal.global_roll_count < MAX_ROLLS
      · by_cases h2 : (d.update t (rng tal.rngIdx)).2 = true
        · by_cases h3 : MAX_ROLLS ≤ tal.global_roll_count + 1
          · rw [stepDice_cons_roll_break rng t d ds tal h1 h2 h3,
              stepDice_cons_roll_break rng t d (ds.take m) tal h1 h2 h3]
            exact ⟨by simp, rfl⟩
          · rw [stepDice_cons_roll_cont rng t d (ds.take m) tal h1 h2 h3] at hfin ⊢
            rw [stepDice_cons_roll_cont rng t d ds tal h1 h2 h3]
            have hact1 :
                (rollTally (d.update t (rng tal.rngIdx)).1.value tal).simulation_active
                  = true := by
              rwa [rollTally_active]
            obtain ⟨e1, e2⟩ := ih m _ hact1 hfin
            exact ⟨by simp [e1], e2⟩
        · rw [stepDice_cons_noroll rng t d (ds.take m) tal h1 (by simpa using h2)] at hfin ⊢
          rw [stepDice_cons_noroll rng t d ds tal h1 (by simpa using h2)]
          obtain ⟨e1, e2⟩ := ih m _ hact hfin
          exact ⟨by simp [e1], e2⟩
      · rw [stepDice_cons_stuck rng t d (ds.take m) tal h1] at hfin ⊢
        rw [stepDice_cons_stuck rng t d ds tal h1]
        obtain ⟨e1, e2⟩ := ih m _ hact hfin
        exact ⟨by simp [e1], e2⟩

theorem stepDice_cap_index (rng : ℕ → ℕ) (t : ℚ) (ds : List Dice) (tal : Tally)
    (hact : tal.simulation_active = true)
    (hfin : (stepDice rng t ds tal).2.simulation_active = false) :
    ∃ j : ℕ, j < ds.length ∧
      (stepDice rng t (ds.take (j + 1)) tal).2.simulation_active = false ∧
      (stepDice rng t (ds.take j) tal).2.simulation_active = true := by
  have hex : ∃ n : ℕ, (stepDice rng t (ds.take n) tal).2.simulation_active = false :=
    ⟨ds.length, by rwa [List.take_length]⟩
  have hN : (stepDice rng t (ds.take (Nat.find hex)) tal).2.simulation_active = false :=
    Nat.find_spec hex
  have hN0 : Nat.find hex ≠ 0 := by
    intro h0
    rw [h0, List.take_zero, stepDice_nil] at hN
    rw [hact] at hN
    exact absurd hN (by simp)
  have hsucc : Nat.find hex - 1 + 1 = Nat.find hex := by omega
  have hmin : ¬ (stepDice rng t (ds.take (Nat.find hex - 1)) tal).2.simulation_active = false :=
    Nat.find_min hex (by omega)
  have hjtrue :
      (stepDice rng t (ds.take (Nat.find hex - 1)) tal).2.simulation_active = true := by
    cases hb : (stepDice rng t (ds.take (Nat.find hex - 1)) tal).2.simulation_active
    · exact absurd hb hmin
    · rfl
  have hjlen : Nat.find hex - 1 < ds.length := by
    by_contra hge
    push_neg at hge
    rw [List.take_of_length_le hge] at hmin
    exact hmin hfin
  refine ⟨Nat.find hex - 1, hjlen, ?_, hjtrue⟩
  rw [hsucc]
  exact hN

theorem stepDice_length (rng : ℕ → ℕ) (t : ℚ) (ds : List Dice) :
    ∀ tal : Tally, (stepDice rng t ds tal).1.length = ds.length := by
  induction ds with
  | nil => intro tal; rfl
  | cons d ds ih =>
    intro tal
    by_cases h1 : tal.global_roll_count < MAX_ROLLS
    · by_cases h2 : (d.update t (rng tal.rngIdx)).2 = true
      · by_cases h3 : MAX_ROLLS ≤ tal.global_roll_count + 1
        · rw [stepDice_cons_roll_break rng t d ds tal h1 h2 h3]
          simp
        · rw [stepDice_cons_roll_cont rng t d ds tal h1 h2 h3]
          simp [ih]
      · rw [stepDice_cons_noroll rng t d ds tal h1 (by simpa using h2)]
        simp [ih]
    · rw [stepDice_cons_stuck rng t d ds tal h1]
      simp [ih]

/-! ### Invariants of reachable simulation states -/

theorem reach_sum {rng : ℕ → ℕ} {s : SimState} (h : Reachable rng s) :
    s.tally.count_low + s.tally.count_high = s.tally.global_roll_count := by
  induction h with
  | init t0 => rfl
  | step t _ ih =>
    unfold frame
    split
    · exact stepDice_sum _ _ _ _ ih
    · exact ih

theorem reach_cap {rng : ℕ → ℕ} {s : SimState} (h : Reachable rng s) :
    s.tally.global_roll_count ≤ MAX_ROLLS := by
  induction h with
  | init t0 => exact Nat.zero_le _
  | step t _ ih =>
    unfold frame
    split
    · exact stepDice_cap _ _ _ _ ih
    · exact ih

theorem reach_active_iff {rng : ℕ → ℕ} {s : SimState} (h : Reachable rng s) :
    s.tally.simulation_active = true ↔ s.tally.global_roll_count < MAX_ROLLS := by
  induction h with
  | init t0 =>
    simp [initState, MAX_ROLLS]
  | step t hr ih =>
    rename_i s'
    unfold frame
    split
    · next hact =>
      have hlt : s'.tally.global_roll_count < MAX_ROLLS := ih.mp hact
      rcases stepDice_active_progress rng t s'.dice s'.tally hact hlt with ⟨ha, hg⟩ | ⟨ha, hg⟩
      · simp [ha, hg]
      · simp [ha, hg]
    · exact ih

theorem reach_valOK {rng : ℕ → ℕ} {s : SimState} (h : Reachable rng s) :
    ∀ d ∈ s.dice, ValOK d := by
  induction h with
  | init t0 =>
    intro d hd
    simp only [initState, List.mem_map, List.mem_range] at hd
    obtain ⟨i, _, rfl⟩ := hd
    exact ⟨randint_one_le _, randint_le_twenty _⟩
  | step t _ ih =>
    unfold frame
    split
    · exact stepDice_valOK _ _ _ _ ih
    · exact ih

/-! ### Claim theorems -/

/-- Claim C1: for every die and every time `current_time`, `Dice.update`
returns true, assigns `value` a fresh draw from the random stream landing
in [1,20] inclusive (every face in [1,20] attainable), and sets
`last_update_time = current_time`, exactly when
`current_time - last_update_time >= update_interval`; otherwise it
returns false and leaves the die unchanged. -/
theorem C1_update_contract (d : Dice) (t : ℚ) (r : ℕ) :
    ((d.update t r).2 = true ↔ t - d.last_update_time ≥ d.update_interval) ∧
    (t - d.last_update_time ≥ d.update_interval →
      (d.update t r).1.value = randint 1 20 r ∧
      1 ≤ (d.update t r).1.value ∧
      (d.update t r).1.value ≤ 20 ∧
      (d.update t r).1.last_update_time = t ∧
      (d.update t r).1.update_interval = d.update_interval ∧
      (d.update t r).1.x = d.x ∧ (d.update t r).1.y = d.y ∧
      (d.update t r).1.size = d.size) ∧
    (¬ t - d.last_update_time ≥ d.update_interval → d.update t r = (d, false)) ∧
    (∀ v : ℕ, 1 ≤ v → v ≤ 20 → randint 1 20 (v - 1) = v) := by
  refine ⟨update_snd_iff d t r, fun h => ?_, update_fst_neg d t r, fun v h1 h2 => ?_⟩
  · rw [update_fst_pos d t r h]
    exact ⟨rfl, randint_one_le r, randint_le_twenty r, rfl, rfl, rfl, rfl, rfl⟩
  · unfold randint
    omega

theorem C1_update_contract_witness :
    ((2 : ℚ) - d0.last_update_time ≥ d0.update_interval) ∧
    (d0.update 2 7).1.value = randint 1 20 7 ∧
    (d0.update 2 7).2 = true :=
  have h : (2 : ℚ) - d0.last_update_time ≥ d0.update_interval := by norm_num [d0]
  ⟨h, ((C1_update_contract d0 2 7).2.1 h).1,
    ((C1_update_contract d0 2 7).1).mpr h⟩

/-- Claim C7: the update intervals assigned at startup follow
`interval(i) = BASE_INTERVAL - (i/(N-1)) * (BASE_INTERVAL - MIN_INTERVAL)`,
are monotonically non-increasing across die index 0..N-1, with die 0 at
`BASE_INTERVAL` and die N-1 at `MIN_INTERVAL` (N = NUM_DICE = 100,
BASE_INTERVAL = 1, MIN_INTERVAL = 1/5). -/
theorem C7_interval_interpolation (t0 : ℕ → ℚ) (rng : ℕ → ℕ) :
    (∀ (i : ℕ) (hi : i < (initState t0 rng).dice.length),
        ((initState t0 rng).dice.get ⟨i, hi⟩).update_interval = diceInterval i) ∧
    (∀ i j : ℕ, i ≤ j → j ≤ NUM_DICE - 1 → diceInterval j ≤ diceInterval i) ∧
    diceInterval 0 = BASE_INTERVAL ∧
    diceInterval (NUM_DICE - 1) = MIN_INTERVAL ∧
    NUM_DICE = 100 ∧ BASE_INTERVAL = 1 ∧ MIN_INTERVAL = 1/5 := by
  refine ⟨fun i hi => ?_, fun i j hij _ => diceInterval_antitone hij,
    diceInterval_zero, diceInterval_last, rfl, rfl, rfl⟩
  simp only [initState, List.length_map, List.length_range] at hi
  simp [initState, mkDice, List.get_eq_getElem]

theorem C7_interval_interpolation_witness :
    (3 : ℕ) ≤ 97 ∧ 97 ≤ NUM_DICE - 1 ∧ diceInterval 97 ≤ diceInterval 3 :=
  ⟨by norm_num, by norm_num [NUM_DICE, COLUMNS, ROWS],
    (C7_interval_interpolation t0c rngc).2.1 3 97 (by norm_num)
      (by norm_num [NUM_DICE, COLUMNS, ROWS])⟩

/-- Claim C8: bar height is the pure function
`bar_height(count, cap, max_height) = (count / cap) * max_height`; the
program's `low_bar_height`/`high_bar_height` are exactly this function at
cap = MAX_ROLLS and max_height = BAR_MAX_HEIGHT; at count = 500,
cap = 1000, max_height = 400 it equals 200; and whenever
count ≤ cap = MAX_ROLLS the height never exceeds max_height. -/
theorem C8_bar_height_pure (c : ℕ) :
    low_bar_height c = bar_height (c : ℚ) (MAX_ROLLS : ℚ) (BAR_MAX_HEIGHT : ℚ) ∧
    high_bar_height c = bar_height (c : ℚ) (MAX_ROLLS : ℚ) (BAR_MAX_HEIGHT : ℚ) ∧
    bar_height 500 1000 400 = 200 ∧
    (c ≤ MAX_ROLLS →
      bar_height (c : ℚ) (MAX_ROLLS : ℚ) (BAR_MAX_HEIGHT : ℚ) ≤ (BAR_MAX_HEIGHT : ℚ)) := by
  refine ⟨rfl, rfl, by norm_num [bar_height], fun hc => ?_⟩
  have hc' : (c : ℚ) ≤ 1000 := by
    have : (c : ℚ) ≤ (MAX_ROLLS : ℚ) := by exact_mod_cast hc
    simpa [MAX_ROLLS] using this
  unfold bar_height MAX_ROLLS BAR_MAX_HEIGHT
  push_cast
  nlinarith [hc']

theorem C8_bar_height_pure_witness :
    bar_height 500 1000 400 = 200 ∧
    bar_height ((500 : ℕ) : ℚ) (MAX_ROLLS : ℚ) (BAR_MAX_HEIGHT : ℚ) ≤ (BAR_MAX_HEIGHT : ℚ) :=
  ⟨(C8_bar_height_pure 500).2.2.1,
    (C8_bar_height_pure 500).2.2.2 (by norm_num [MAX_ROLLS])⟩

/-- Claim C10: for a die with positive update interval (as every die of
the program has, since each assigned interval is at least
MIN_INTERVAL = 1/5 > 0), `last_update_time` is non-decreasing across any
sequence of `update` calls with arbitrary time arguments, and a call with
a regressed clock (`current_time < last_update_time`) returns false and
changes nothing. -/
theorem C10_last_time_monotone (d : Dice) (h : 0 < d.update_interval) :
    (∀ l : List (ℚ × ℕ), d.last_update_time ≤ (d.updates l).last_update_time) ∧
    (∀ (t : ℚ) (r : ℕ), t < d.last_update_time → d.update t r = (d, false)) ∧
    (∀ i : ℕ, i < NUM_DICE → MIN_INTERVAL ≤ diceInterval i ∧ 0 < diceInterval i) := by
  refine ⟨fun l => ?_, fun t r ht => ?_, fun i hi =>
    ⟨diceInterval_ge_min hi, diceInterval_pos hi⟩⟩
  · induction l generalizing d with
    | nil => exact le_refl _
    | cons p ps ih =>
      have h1 : d.last_update_time ≤ (d.update p.1 p.2).1.last_update_time :=
        update_last_mono d h p.1 p.2
      have h2 : 0 < (d.update p.1 p.2).1.update_interval := by
        rw [update_interval_const]; exact h
      calc d.last_update_time ≤ (d.update p.1 p.2).1.last_update_time := h1
        _ ≤ ((d.update p.1 p.2).1.updates ps).last_update_time := ih _ h2
  · apply update_fst_neg
    intro hc
    have : t - d.last_update_time < 0 := by linarith
    linarith

theorem C10_last_time_monotone_witness :
    (0 : ℚ) < d0.update_interval ∧ d0.update (-1) 4 = (d0, false) :=
  ⟨by norm_num [d0],
    (C10_last_time_monotone d0 (by norm_num [d0])).2.1 (-1) 4 (by norm_num [d0])⟩

/-- Claim C2: at every reachable state of the simulation (before and
after each frame step), `count_low + count_high = global_roll_count`;
moreover the tally bookkeeping of a successful re-roll increments
`global_roll_count` and exactly one of `count_low` (value in [1,13]) or
`count_high` (otherwise) by one, and nothing else in the loop touches
the counters. -/
theorem C2_counter_sum (rng : ℕ → ℕ) (s : SimState) (h : Reachable rng s) :
    s.tally.count_low + s.tally.count_high = s.tally.global_roll_count ∧
    (∀ (v : ℕ) (tal : Tally),
      (rollTally v tal).global_roll_count = tal.global_roll_count + 1 ∧
      ((rollTally v tal).count_low = tal.count_low + 1 ∧
          (rollTally v tal).count_high = tal.count_high ∨
        (rollTally v tal).count_low = tal.count_low ∧
          (rollTally v tal).count_high = tal.count_high + 1)) := by
  refine ⟨reach_sum h, fun v tal => ⟨rfl, ?_⟩⟩
  unfold rollTally
  by_cases hv : 1 ≤ v ∧ v ≤ 13
  · exact Or.inl ⟨by simp [hv], by simp [hv]⟩
  · exact Or.inr ⟨by simp [hv], by simp [hv]⟩

theorem C2_counter_sum_witness :
    (initState t0c rngc).tally.count_low + (initState t0c rngc).tally.count_high
      = (initState t0c rngc).tally.global_roll_count :=
  (C2_counter_sum rngc (initState t0c rngc) (Reachable.init t0c)).1

/-- Claim C3: in every reachable state of the simulation,
`global_roll_count` never exceeds the cap MAX_ROLLS = 1000. -/
theorem C3_roll_cap (rng : ℕ → ℕ) (s : SimState) (h : Reachable rng s) :
    s.tally.global_roll_count ≤ MAX_ROLLS ∧ MAX_ROLLS = 1000 :=
  ⟨reach_cap h, rfl⟩

theorem C3_roll_cap_witness :
    (initState t0c rngc).tally.global_roll_count ≤ MAX_ROLLS :=
  (C3_roll_cap rngc (initState t0c rngc) (Reachable.init t0c)).1

/-- Claim C4: once the phase is Finished (`simulation_active = false`),
every later frame step is a no-op on the whole simulation state (the
counters and every die's fields are unchanged, since the state is
returned as is), the phase never transitions back to Active, and a
transition from Active happens exactly when `global_roll_count` reaches
the cap during the frame. -/
theorem C4_finished_terminal (rng : ℕ → ℕ) (t : ℚ) (s : SimState) :
    (s.tally.simulation_active = false → frame rng t s = s) ∧
    ((frame rng t s).tally.simulation_active = true →
      s.tally.simulation_active = true) ∧
    (s.tally.simulation_active = true → s.tally.global_roll_count < MAX_ROLLS →
      ((frame rng t s).tally.simulation_active = false ↔
        (frame rng t s).tally.global_roll_count = MAX_ROLLS)) := by
  refine ⟨fun h => ?_, fun h => ?_, fun h1 h2 => ?_⟩
  · simp [frame, h]
  · by_cases ha : s.tally.simulation_active = true
    · exact ha
    · have hb : s.tally.simulation_active = false := by simpa using ha
      simp [frame, hb] at h
  · have hfa : (frame rng t s).tally = (stepDice rng t s.dice s.tally).2 := by
      simp [frame, h1]
    rw [hfa]
    rcases stepDice_active_progress rng t s.dice s.tally h1 h2 with ⟨ha, hg⟩ | ⟨ha, hg⟩
    · constructor
      · intro hc
        rw [ha] at hc
        exact absurd hc (by simp)
      · intro hc
        exact absurd hc (by omega)
    · exact ⟨fun _ => hg, fun _ => ha⟩

theorem C4_finished_terminal_witness :
    sInactive.tally.simulation_active = false ∧ frame rngc 0 sInactive = sInactive :=
  ⟨rfl, (C4_finished_terminal rngc 0 sInactive).1 rfl⟩

/-- Claim C5: if `global_roll_count` reaches the cap while iterating the
die collection within one frame, the phase is set to Finished at that
point (the loop's tally ends deactivated with count exactly MAX_ROLLS)
and the remaining dice of that frame are not updated. Frozen-at-cap is
stated universally: for every `n` such that the break has already
occurred within the first `n` dice, the whole frame's result is the
result on those first `n` dice with the input suffix from `n` on
appended verbatim (so no die past the break point is updated, and the
tally is final at the break); and the break position is pinned by an
index `j` with the loop still active after `j` dice but deactivated
after `j + 1`. -/
theorem C5_frozen_at_cap (rng : ℕ → ℕ) (t : ℚ) (ds : List Dice) (tal : Tally)
    (hact : tal.simulation_active = true)
    (hfin : (stepDice rng t ds tal).2.simulation_active = false) :
    (stepDice rng t ds tal).2.global_roll_count = MAX_ROLLS ∧
    (∀ n : ℕ, (stepDice rng t (ds.take n) tal).2.simulation_active = false →
      (stepDice rng t ds tal).1 = (stepDice rng t (ds.take n) tal).1 ++ ds.drop n ∧
      (stepDice rng t ds tal).2 = (stepDice rng t (ds.take n) tal).2) ∧
    ∃ j : ℕ, j < ds.length ∧
      (stepDice rng t (ds.take (j + 1)) tal).2.simulation_active = false ∧
      (stepDice rng t (ds.take j) tal).2.simulation_active = true :=
  ⟨stepDice_deactivation rng t ds tal hact hfin,
    fun n hn => stepDice_freeze rng t ds n tal hact hn,
    stepDice_cap_index rng t ds tal hact hfin⟩

theorem C5_frozen_at_cap_witness :
    talW.simulation_active = true ∧
    (stepDice rngc 2 [d0, d0] talW).2.simulation_active = false ∧
    (stepDice rngc 2 ([d0, d0].take 1) talW).2.simulation_active = false ∧
    (stepDice rngc 2 [d0, d0] talW).2.global_roll_count = MAX_ROLLS ∧
    (stepDice rngc 2 [d0, d0] talW).1
      = (stepDice rngc 2 ([d0, d0].take 1) talW).1 ++ [d0, d0].drop 1 := by
  have hupd : (d0.update 2 (rngc talW.rngIdx)).2 = true :=
    (update_snd_iff d0 2 (rngc talW.rngIdx)).mpr (by norm_num [d0])
  have hstep : stepDice rngc 2 [d0, d0] talW =
      ((d0.update 2 (rngc talW.rngIdx)).1 :: [d0],
        finishTally (rollTally (d0.update 2 (rngc talW.rngIdx)).1.value talW)) :=
    stepDice_cons_roll_break rngc 2 d0 [d0] talW (by norm_num [talW, MAX_ROLLS]) hupd
      (by norm_num [talW, MAX_ROLLS])
  have hstep1 : stepDice rngc 2 [d0] talW =
      ((d0.update 2 (rngc talW.rngIdx)).1 :: [],
        finishTally (rollTally (d0.update 2 (rngc talW.rngIdx)).1.value talW)) :=
    stepDice_cons_roll_break rngc 2 d0 [] talW (by norm_num [talW, MAX_ROLLS]) hupd
      (by norm_num [talW, MAX_ROLLS])
  have hfin : (stepDice rngc 2 [d0, d0] talW).2.simulation_active = false := by
    rw [hstep]
    rfl
  have hfin1 : (stepDice rngc 2 ([d0, d0].take 1) talW).2.simulation_active = false := by
    rw [List.take_succ_cons, List.take_zero, hstep1]
    rfl
  refine ⟨rfl, hfin, hfin1, (C5_frozen_at_cap rngc 2 [d0, d0] talW rfl hfin).1, ?_⟩
  exact ((C5_frozen_at_cap rngc 2 [d0, d0] talW rfl hfin).2.1 1 hfin1).1

/-- Claim C6: for every die in the collection, its face value is in
[1,20] at construction and after any number of frame updates, i.e. in
every reachable state. -/
theorem C6_face_in_range (rng : ℕ → ℕ) (s : SimState) (h : Reachable rng s) :
    ∀ d ∈ s.dice, 1 ≤ d.value ∧ d.value ≤ 20 :=
  reach_valOK h

theorem C6_face_in_range_witness :
    1 ≤ (mkDice t0c rngc 0).value ∧ (mkDice t0c rngc 0).value ≤ 20 := by
  have hmem : mkDice t0c rngc 0 ∈ (initState t0c rngc).dice :=
    List.mem_map_of_mem (mkDice t0c rngc)
      (List.mem_range.mpr (by norm_num [NUM_DICE, COLUMNS, ROWS]))
  exact C6_face_in_range rngc (initState t0c rngc) (Reachable.init t0c) _ hmem

/-- Claim C9 (implicit): in every reachable state,
`simulation_active = (global_roll_count < MAX_ROLLS)`; in particular when
the phase is Finished, `global_roll_count` equals exactly 1000 (neither
short nor overshot) and the capping roll was itself counted and
classified, so the two buckets also sum to exactly 1000. -/
theorem C9_active_iff_below_cap (rng : ℕ → ℕ) (s : SimState) (h : Reachable rng s) :
    (s.tally.simulation_active = true ↔ s.tally.global_roll_count < MAX_ROLLS) ∧
    (s.tally.simulation_active = false →
      s.tally.global_roll_count = MAX_ROLLS ∧
      s.tally.count_low + s.tally.count_high = MAX_ROLLS) := by
  refine ⟨reach_active_iff h, fun hfin => ?_⟩
  have hcap := reach_cap h
  have hiff := reach_active_iff h
  have hnlt : ¬ s.tally.global_roll_count < MAX_ROLLS := by
    intro hlt
    have := hiff.mpr hlt
    rw [hfin] at this
    exact absurd this (by simp)
  have heq : s.tally.global_roll_count = MAX_ROLLS := by omega
  exact ⟨heq, by rw [reach_sum h, heq]⟩

theorem C9_active_iff_below_cap_witness :
    (initState t0c rngc).tally.simulation_active = true ↔
      (initState t0c rngc).tally.global_roll_count < MAX_ROLLS :=
  (C9_active_iff_below_cap rngc (initState t0c rngc) (Reachable.init t0c)).1

end DiceSim
